import Mathlib

/-
Verification of the sampling utility `cpu-monitor.py` of the trix repository.

The script has two modes:
  * `monitor_all_processes`: after a control-file barrier, repeatedly enumerate
    the process table, appending one record per process, sleeping and
    re-reading the control file after each record;
  * `monitor_bgp_cpu`: locate three named processes, pass the barrier, then
    once per tick append one record with the total CPU, the per-core CPUs and
    the three processes' CPUs, sleeping and re-reading the control file.

The embedding below models the external world (control-file states, process
tables, per-core CPU readings, the wall clock `datetime.utcnow`) as explicit
streams indexed by read/query counters, and each loop as a fuel-bounded
recursive function producing the in-memory log together with an event trace
(appends tagged by tick, sleeps, control-file checks).  Machine floats of the
source are modelled by `ℚ`; this is faithful for every claim below, none of
which depends on rounding.  Unicode digits and non-ASCII whitespace accepted
by Python's `int`/`str.strip` are outside the model, which covers the ASCII
fragment.
-/

/- ## Control file: `read_control` (cpu-monitor.py lines 27-33) -/

/-- Characters stripped by Python's `str.strip()` (ASCII fragment):
space, tab, newline, vertical tab, form feed, carriage return. -/
def isPySpace (c : Char) : Bool :=
  c = ' ' || c = '\t' || c = '\n' || c = Char.ofNat 11 || c = Char.ofNat 12 || c = '\r'

/-- Python `str.strip()` on the file content (ASCII fragment). -/
def pyStrip (s : String) : List Char :=
  ((s.toList.dropWhile isPySpace).reverse.dropWhile isPySpace).reverse

/-- Decimal digit test. -/
def isDig (c : Char) : Bool := '0' ≤ c && c ≤ '9'

/-- Validity of the part of a Python integer string after the optional sign:
one or more decimal digits, with single underscores allowed between digits
(`digit (("_")? digit)*`), as accepted by Python 3's `int`. -/
def coreOk : List Char → Bool
  | [] => false
  | [c] => isDig c
  | c :: r :: rest => isDig c && (if r = '_' then coreOk rest else coreOk (r :: rest))

/-- Numeric value of a digit-and-underscore string (underscores ignored). -/
def coreVal (l : List Char) : Nat :=
  (l.filter (fun c => c ≠ '_')).foldl (fun a c => 10 * a + (c.toNat - 48)) 0

/-- Python `int(s)` on an already-stripped string: optional sign followed by a
valid digit core; `none` models the `ValueError` raised otherwise. -/
def pyInt : List Char → Option Int
  | [] => none
  | c :: rest =>
    if c = '+' then (if coreOk rest then some (coreVal rest) else none)
    else if c = '-' then (if coreOk rest then some (-(coreVal rest : Int)) else none)
    else if coreOk (c :: rest) then some (coreVal (c :: rest)) else none

/-- Embedding of `read_control` (lines 27-33).  The control-file state is
`none` when the file is missing (`FileNotFoundError`) and `some content`
otherwise; the function returns `int(content.strip())` and catches exactly
`FileNotFoundError` and `ValueError`, returning `0` for them.  It is total:
neither failure is surfaced to the caller. -/
def read_control (file : Option String) : Int :=
  match file with
  | none => 0
  | some content =>
    match pyInt (pyStrip content) with
    | none => 0
    | some n => n

/-- Outcome of one evaluation of the pre-loop barrier condition
`while read_control(control_file) != 1: time.sleep(interval)`
(lines 43-44 and 118-119): `start` leaves the wait loop, `wait` sleeps and
retries. -/
inductive BarrierAct where
  | wait : BarrierAct
  | start : BarrierAct
deriving DecidableEq, Repr

/-- One step of the pre-loop barrier: it advances exactly when the control
file reads as `1`. -/
def barrierStep (file : Option String) : BarrierAct :=
  if read_control file = 1 then .start else .wait

/- ## Startup of `monitor_bgp_cpu` (lines 93-115): locating the named processes -/

/-- Value of the loop variable after
`for p in psutil.process_iter():  if p.name() == target: break`
over a process table given by its list of process names:  the first process
whose name matches, otherwise the last process enumerated (a `for` loop that
ends without `break` leaves the loop variable bound to the final element);
`none` when the table is empty, in which case the variable stays unbound and
the subsequent `if not p` raises `NameError`. -/
def findLoopVar : List String → String → Option String
  | [], _ => none
  | [p], _ => some p
  | p :: q :: rest, target =>
    if p = target then some p else findLoopVar (q :: rest) target

/-- Truthiness of a `psutil.Process` object, as used by `if not bgp_process:`.
The class defines neither `__bool__` nor `__len__`, so every bound process
object is truthy and `not proc` is always `False`. -/
def procTruthy (_p : String) : Bool := true

/-- Result of the startup section of `monitor_bgp_cpu` (lines 93-115). -/
inductive Startup where
  /-- The process table was empty, the loop variable stays unbound, and
  `if not ...` raises `NameError`. -/
  | nameError : Startup
  /-- The diagnostic `msg` was printed and the function returned early. -/
  | aborted (msg : String) : Startup
  /-- Startup succeeded and the loop proceeds with the three processes. -/
  | proceed (bgp ipfib urib : String) : Startup
deriving DecidableEq, Repr

/-- Embedding of the three find-the-process scans of `monitor_bgp_cpu`
(lines 93-115) over a startup process table given by its process names. -/
def bgpStartup (table : List String) : Startup :=
  match findLoopVar table "bgp" with
  | none => .nameError
  | some bgp =>
    if !procTruthy bgp then .aborted "BGP process not found."
    else
      match findLoopVar table "ipfib" with
      | none => .nameError
      | some ipfib =>
        if !procTruthy ipfib then .aborted "'ipfib' process not found."
        else
          match findLoopVar table "urib" with
          | none => .nameError
          | some urib =>
            if !procTruthy urib then .aborted "'urib' process not found."
            else .proceed bgp ipfib urib

/- ## Records, events and environments for the two sampling loops -/

/-- One Python value appearing in a record (machine floats modelled by `ℚ`). -/
inductive Cell where
  | int (i : Int) : Cell
  | str (s : String) : Cell
  | rat (q : ℚ) : Cell
deriving DecidableEq, Repr

/-- Per-process attributes requested by `monitor_all_processes` via
`psutil.process_iter(attrs)` (lines 46-56), in the order of the `attrs` list.
`open_files` is rendered as a string since only its printed form reaches the
record. -/
structure ProcInfo where
  pid : Int
  name : String
  exe : String
  cpu_percent : ℚ
  memory_percent : ℚ
  num_threads : Int
  nice : Int
  num_fds : Int
  open_files : String
deriving DecidableEq, Repr

/-- The `attrs` list of `monitor_all_processes` (lines 46-56). -/
def attrsAll : List String :=
  ["pid", "name", "exe", "cpu_percent", "memory_percent",
   "num_threads", "nice", "num_fds", "open_files"]

/-- The header row of `monitor_all_processes` (line 57). -/
def headersAll : List String := ["rid", "router_name", "timestamp"] ++ attrsAll

/-- One record appended by `monitor_all_processes` (lines 63-66):
`(router_id, router_name, timestamp) + tuple(proc.info[attr] for attr in attrs)`. -/
structure RowA where
  rid : Int
  router_name : String
  timestamp : ℚ
  proc : ProcInfo
deriving DecidableEq, Repr

/-- The tuple of cells of an all-process record, in source order. -/
def RowA.cells (r : RowA) : List Cell :=
  [.int r.rid, .str r.router_name, .rat r.timestamp,
   .int r.proc.pid, .str r.proc.name, .str r.proc.exe,
   .rat r.proc.cpu_percent, .rat r.proc.memory_percent,
   .int r.proc.num_threads, .int r.proc.nice, .int r.proc.num_fds,
   .str r.proc.open_files]

/-- Python's built-in `sum` on a list: a left fold starting from `0`,
as used for `total_cpu_percent = sum(system_cpu_percent)` (line 140). -/
def pySum (l : List ℚ) : ℚ := l.foldl (· + ·) 0

/-- The per-core column names `cpu1, ..., cpuX` of `monitor_bgp_cpu`
(line 129). -/
def cpuColumns (numCpus : ℕ) : List String :=
  (List.range numCpus).map (fun i => "cpu" ++ toString (i + 1))

/-- The header row of `monitor_bgp_cpu` (line 130). -/
def headersBgp (numCpus : ℕ) : List String :=
  ["rid", "router_name", "timestamp", "cpu"] ++ cpuColumns numCpus
    ++ ["bgp_cpu", "ipfib_cpu", "urib_cpu"]

/-- One record appended by `monitor_bgp_cpu` (lines 143-154). -/
structure BgpRow where
  rid : Int
  router_name : String
  timestamp : ℚ
  cpu : ℚ
  cores : List ℚ
  bgp_cpu : ℚ
  ipfib_cpu : ℚ
  urib_cpu : ℚ
deriving DecidableEq, Repr

/-- The tuple of cells of a named-process record, in source order:
`(router_id, router_name, timestamp, total_cpu_percent, *system_cpu_percent,
bgp_..., ipfib_..., urib_...)`. -/
def BgpRow.cells (r : BgpRow) : List Cell :=
  [.int r.rid, .str r.router_name, .rat r.timestamp, .rat r.cpu]
    ++ r.cores.map .rat
    ++ [.rat r.bgp_cpu, .rat r.ipfib_cpu, .rat r.urib_cpu]

/-- Observable events of a sampling loop, in program order: a record append
(tagged with the index of the outer-loop iteration, its "tick", and the
record), a `time.sleep(interval)` call, and a `read_control` call returning
`v`. -/
inductive MEvent (ρ : Type) where
  | append (tick : ℕ) (row : ρ) : MEvent ρ
  | sleep : MEvent ρ
  | check (v : Int) : MEvent ρ
deriving DecidableEq, Repr

/-- Environment of `monitor_all_processes`: `control k` is the control-file
state seen by the `k`-th in-loop `read_control` call, `table t` the process
table enumerated by `psutil.process_iter(attrs)` at tick `t`, and `clock k`
the value of the `k`-th `datetime.utcnow().timestamp()` call. -/
structure EnvAll where
  control : ℕ → Option String
  table : ℕ → List ProcInfo
  clock : ℕ → ℚ

/-- Environment of `monitor_bgp_cpu` after startup: `control k` is the file
state at the `k`-th loop-condition `read_control`, `initCores` the pre-loop
`psutil.cpu_percent(percpu=True)` reading used only to fix the column count
(lines 122, 128), `cores t`, `bgp t`, `ipfib t`, `urib t` the in-loop CPU
readings at tick `t`, and `clock k` the `k`-th `utcnow` call. -/
structure EnvBgp where
  control : ℕ → Option String
  initCores : List ℚ
  cores : ℕ → List ℚ
  bgp : ℕ → ℚ
  ipfib : ℕ → ℚ
  urib : ℕ → ℚ
  clock : ℕ → ℚ

/-- The per-core reading has the machine's fixed core count on every tick. -/
def EnvBgp.fixedCores (env : EnvBgp) : Prop :=
  ∀ t, (env.cores t).length = env.initCores.length

/-- Result of one pass of the inner `for proc in psutil.process_iter(attrs)`
loop of `monitor_all_processes`: the records appended, the events emitted,
the final clock and control-read counters, and the final value of `cont`. -/
structure TickRes where
  rows : List RowA
  evs : List (MEvent RowA)
  ci : ℕ
  ri : ℕ
  cont : Bool
deriving Repr

/-- Embedding of the inner loop of `monitor_all_processes` (lines 61-71) at
tick `tick`, over the remaining process list, with clock counter `ci` and
control-read counter `ri`.  Each iteration takes a timestamp, appends a
record, sleeps, re-reads the control file, and `break`s when the read is not
`1`; a loop that exhausts the list leaves `cont` at `true` (every in-list
check read `1`, or the list was empty). -/
def tickAll (env : EnvAll) (rid : Int) (rname : String) (tick : ℕ) :
    List ProcInfo → ℕ → ℕ → TickRes
  | [], ci, ri => ⟨[], [], ci, ri, true⟩
  | p :: rest, ci, ri =>
    let row : RowA := ⟨rid, rname, env.clock ci, p⟩
    let v := read_control (env.control ri)
    if v = 1 then
      let r := tickAll env rid rname tick rest (ci + 1) (ri + 1)
      ⟨row :: r.rows, .append tick row :: .sleep :: .check v :: r.evs,
       r.ci, r.ri, r.cont⟩
    else
      ⟨[row], [.append tick row, .sleep, .check v], ci + 1, ri + 1, false⟩

/-- In-memory log and event trace of a run of a sampling loop. -/
structure RunRes (ρ : Type) where
  log : List ρ
  evs : List (MEvent ρ)
deriving Repr

/-- Embedding of the outer `while cont:` loop of `monitor_all_processes`
(lines 59-71), bounded by `fuel` outer iterations (the source loop runs
until the control file stops reading `1`; every finite prefix of such a run
is some `runAll ... fuel`). -/
def runAll (env : EnvAll) (rid : Int) (rname : String) :
    ℕ → ℕ → ℕ → ℕ → RunRes RowA
  | 0, _, _, _ => ⟨[], []⟩
  | fuel + 1, tick, ci, ri =>
    let t := tickAll env rid rname tick (env.table tick) ci ri
    if t.cont then
      let r := runAll env rid rname fuel (tick + 1) t.ci t.ri
      ⟨t.rows ++ r.log, t.evs ++ r.evs⟩
    else ⟨t.rows, t.evs⟩

/-- Embedding of the main loop of `monitor_bgp_cpu`
(`while read_control(control_file) == 1:` lines 132-157), bounded by `fuel`
iterations.  Each iteration first re-reads the control file; when it reads
`1` the loop takes a timestamp, reads the per-core and per-process CPUs,
computes the total as Python's `sum` of the per-core list, appends one
record, and sleeps. -/
def runBgp (env : EnvBgp) (rid : Int) (rname : String) :
    ℕ → ℕ → ℕ → ℕ → RunRes BgpRow
  | 0, _, _, _ => ⟨[], []⟩
  | fuel + 1, tick, ci, ri =>
    let v := read_control (env.control ri)
    if v = 1 then
      let cores := env.cores tick
      let row : BgpRow :=
        ⟨rid, rname, env.clock ci, pySum cores, cores,
         env.bgp tick, env.ipfib tick, env.urib tick⟩
      let r := runBgp env rid rname fuel (tick + 1) (ci + 1) (ri + 1)
      ⟨row :: r.log, .check v :: .append tick row :: .sleep :: r.evs⟩
    else ⟨[], [.check v]⟩

/-- The sequence of rows handed to the output stage (lines 73-84 and
159-170): the header row followed by one row per log record, in log order.
With an output path each element is one `csv.writer.writerow` call (and
`csv.reader` returns exactly the written row sequence back); without one,
each element is one comma-joined printed line.  Both branches emit the same
header and the same records in the same order. -/
def writeOutput (headers : List String) (log : List (List Cell)) :
    List (List Cell) :=
  (headers.map .str) :: log

/- ## Trace observations and predicates -/

/-- Sleep-event test. -/
def isSleep {ρ : Type} : MEvent ρ → Bool
  | MEvent.sleep => true
  | _ => false

/-- Values returned by the control-file checks of a trace, in order. -/
def checkVals {ρ : Type} (tr : List (MEvent ρ)) : List Int :=
  tr.filterMap fun e =>
    match e with
    | MEvent.check v => some v
    | _ => none

/-- Number of control-file checks of a trace that read `1`. -/
def checkOneCount {ρ : Type} (tr : List (MEvent ρ)) : ℕ :=
  (checkVals tr).count 1

/-- Ticks tagged on the append events of a trace, in trace order. -/
def appendTicks {ρ : Type} (tr : List (MEvent ρ)) : List ℕ :=
  tr.filterMap fun e =>
    match e with
    | MEvent.append t _ => some t
    | _ => none

/-- Every control-file check in the trace read `1`. -/
def checksOk {ρ : Type} (tr : List (MEvent ρ)) : Prop :=
  ∀ v : Int, MEvent.check v ∈ tr → v = 1

/-- Every control-file check in the trace read `1`, except possibly one as
the very last event of the trace. -/
def goodRun {ρ : Type} (tr : List (MEvent ρ)) : Prop := checksOk tr.dropLast

/-- After any control-file check that read a value other than `1`, no record
is appended for the rest of the trace. -/
def noAppendAfterBad {ρ : Type} (tr : List (MEvent ρ)) : Prop :=
  ∀ (l1 : List (MEvent ρ)) (v : Int) (l2 : List (MEvent ρ)),
    tr = l1 ++ MEvent.check v :: l2 → v ≠ 1 →
      ∀ (t : ℕ) (r : ρ), MEvent.append t r ∉ l2

/- ## Concrete sample environments -/

/-- A sample process-table entry. -/
def p0 : ProcInfo := ⟨1, "systemd", "/sbin/init", 2, 1, 1, 0, 3, "[]"⟩

/-- All-process environment whose control file always contains `"0"`. -/
def envA0 : EnvAll := ⟨fun _ => some "0", fun _ => [p0], fun k => (k : ℚ)⟩

/-- All-process environment whose control file always contains `"1"`. -/
def envA1 : EnvAll := ⟨fun _ => some "1", fun _ => [p0], fun k => (k : ℚ)⟩

/-- Named-process environment whose control file always contains `"0"`. -/
def envB0 : EnvBgp :=
  ⟨fun _ => some "0", [50, 25], fun _ => [50, 25],
   fun _ => 10, fun _ => 5, fun _ => 2, fun k => (k : ℚ)⟩

/-- Named-process environment whose control file always contains `"1"`. -/
def envB1 : EnvBgp :=
  ⟨fun _ => some "1", [50, 25], fun _ => [50, 25],
   fun _ => 10, fun _ => 5, fun _ => 2, fun k => (k : ℚ)⟩

/- ## Helper lemmas -/

/-- The abort branches of `bgpStartup` are dead code: a bound process object
is always truthy, so the `if not ...` guards never fire and the diagnostic
messages of lines 98, 106 and 114 are never printed. -/
theorem bgpStartup_never_aborted (table : List String) (msg : String) :
    bgpStartup table ≠ Startup.aborted msg := by
  unfold bgpStartup
  cases findLoopVar table "bgp" <;> simp [procTruthy]
  cases findLoopVar table "ipfib" <;> simp [procTruthy]
  cases findLoopVar table "urib" <;> simp [procTruthy]

/-- Python's `sum` agrees with the mathematical list sum over `ℚ`. -/
theorem pySum_eq_sum (l : List ℚ) : pySum l = l.sum := by
  have h : ∀ (l : List ℚ) (a : ℚ), List.foldl (· + ·) a l = a + l.sum := by
    intro l
    induction l with
    | nil => intro a; simp
    | cons x xs ih => intro a; simp [List.foldl, ih, List.sum_cons]; ring
  simp [pySum, h]

/-- The standard-cast clock of the sample environments is monotone. -/
theorem natCastClock_mono : ∀ i j : ℕ, i ≤ j → ((i : ℚ) ≤ (j : ℚ)) :=
  fun _ _ h => Nat.cast_le.mpr h

theorem checksOk_nil {ρ : Type} : checksOk ([] : List (MEvent ρ)) := by
  intro v hv; cases hv

theorem checksOk_append {ρ : Type} {t1 t2 : List (MEvent ρ)}
    (h1 : checksOk t1) (h2 : checksOk t2) : checksOk (t1 ++ t2) := by
  intro v hv
  rcases List.mem_append.mp hv with h | h
  · exact h1 v h
  · exact h2 v h

theorem goodRun_of_checksOk {ρ : Type} {tr : List (MEvent ρ)}
    (h : checksOk tr) : goodRun tr :=
  fun v hv => h v (List.dropLast_subset tr hv)

theorem goodRun_append {ρ : Type} {t1 t2 : List (MEvent ρ)}
    (h1 : checksOk t1) (h2 : goodRun t2) : goodRun (t1 ++ t2) := by
  cases t2 with
  | nil =>
    rw [List.append_nil]
    exact goodRun_of_checksOk h1
  | cons x xs =>
    unfold goodRun
    rw [List.dropLast_append_cons]
    exact checksOk_append h1 h2

theorem noAppendAfterBad_of_goodRun {ρ : Type} {tr : List (MEvent ρ)}
    (h : goodRun tr) : noAppendAfterBad tr := by
  intro l1 v l2 heq hv t r hmem
  cases l2 with
  | nil => cases hmem
  | cons x xs =>
    apply hv
    apply h v
    rw [heq, List.dropLast_append_cons]
    exact List.mem_append_right _ (by simp [List.dropLast])

/-- Shape of one pass of the inner loop of `monitor_all_processes`: either the
process list is exhausted with every check reading `1` (`cont` stays `true`),
or a check read something other than `1` and the pass stops right there, the
bad check being the final event. -/
theorem tickAll_checks (env : EnvAll) (rid : Int) (rname : String) (tick : ℕ) :
    ∀ (procs : List ProcInfo) (ci ri : ℕ),
      ((tickAll env rid rname tick procs ci ri).cont = true
        ∧ checksOk (tickAll env rid rname tick procs ci ri).evs)
      ∨ ((tickAll env rid rname tick procs ci ri).cont = false
        ∧ ∃ (t1 : List (MEvent RowA)) (v : Int), v ≠ 1 ∧ checksOk t1
            ∧ (tickAll env rid rname tick procs ci ri).evs
                = t1 ++ [MEvent.check v]) := by
  intro procs
  induction procs with
  | nil => intro ci ri; exact Or.inl ⟨rfl, checksOk_nil⟩
  | cons p rest ih =>
    intro ci ri
    by_cases hv : read_control (env.control ri) = 1
    · rcases ih (ci + 1) (ri + 1) with ⟨hc, hok⟩ | ⟨hc, t1, v, hv1, ht1, heq⟩
      · left
        refine ⟨by simp [tickAll, hv, hc], ?_⟩
        simp only [tickAll, hv, if_pos]
        intro w hw
        simp only [List.mem_cons] at hw
        rcases hw with h | h | h | hw
        · exact absurd h (by simp)
        · exact absurd h (by simp)
        · simp only [MEvent.check.injEq] at h
          exact h
        · exact hok w hw
      · right
        refine ⟨by simp [tickAll, hv, hc], ?_⟩
        refine ⟨MEvent.append tick ⟨rid, rname, env.clock ci, p⟩
            :: MEvent.sleep :: MEvent.check 1 :: t1, v, hv1, ?_, ?_⟩
        · intro w hw
          simp only [List.mem_cons] at hw
          rcases hw with h | h | h | hw
          · exact absurd h (by simp)
          · exact absurd h (by simp)
          · simp only [MEvent.check.injEq] at h
            exact h
          · exact ht1 w hw
        · simp only [tickAll, hv, if_pos, heq]
          simp
    · right
      refine ⟨by simp [tickAll, hv], ?_⟩
      refine ⟨[MEvent.append tick ⟨rid, rname, env.clock ci, p⟩, MEvent.sleep],
          read_control (env.control ri), hv, ?_, by simp [tickAll, hv]⟩
      intro w hw
      simp only [List.mem_cons, List.not_mem_nil, or_false] at hw
      rcases hw with h | h
      · exact absurd h (by simp)
      · exact absurd h (by simp)

/-- The trace of one inner-loop pass has every check equal to `1` except
possibly a final bad one. -/
theorem tickAll_goodRun (env : EnvAll) (rid : Int) (rname : String) (tick : ℕ)
    (procs : List ProcInfo) (ci ri : ℕ) :
    goodRun (tickAll env rid rname tick procs ci ri).evs := by
  rcases tickAll_checks env rid rname tick procs ci ri with ⟨_, hok⟩ | ⟨_, t1, v, _, ht1, heq⟩
  · exact goodRun_of_checksOk hok
  · rw [heq]
    unfold goodRun
    rw [List.dropLast_concat]
    exact ht1

/-- The trace of a run of `monitor_all_processes` has every check equal to
`1` except possibly a final bad one. -/
theorem runAll_goodRun (env : EnvAll) (rid : Int) (rname : String) :
    ∀ (fuel tick ci ri : ℕ),
      goodRun (runAll env rid rname fuel tick ci ri).evs := by
  intro fuel
  induction fuel with
  | zero => intro tick ci ri; intro v hv; cases hv
  | succ n ih =>
    intro tick ci ri
    rcases tickAll_checks env rid rname tick (env.table tick) ci ri with ⟨hc, hok⟩ | ⟨hc, t1, v, hv1, ht1, heq⟩
    · simp only [runAll, hc, if_pos]
      exact goodRun_append hok (ih (tick + 1) _ _)
    · simp only [runAll, hc, Bool.false_eq_true, if_false]
      exact tickAll_goodRun env rid rname tick (env.table tick) ci ri

/-- The trace of a run of `monitor_bgp_cpu` has every check equal to `1`
except possibly a final bad one. -/
theorem runBgp_goodRun (env : EnvBgp) (rid : Int) (rname : String) :
    ∀ (fuel tick ci ri : ℕ),
      goodRun (runBgp env rid rname fuel tick ci ri).evs := by
  intro fuel
  induction fuel with
  | zero => intro tick ci ri; intro v hv; cases hv
  | succ n ih =>
    intro tick ci ri
    by_cases hv : read_control (env.control ri) = 1
    · simp only [runBgp, hv, if_pos]
      have h1 : checksOk [MEvent.check (1 : Int), MEvent.append tick
          (⟨rid, rname, env.clock ci, pySum (env.cores tick), env.cores tick,
            env.bgp tick, env.ipfib tick, env.urib tick⟩ : BgpRow), MEvent.sleep] := by
        intro w hw
        simp only [List.mem_cons, List.not_mem_nil, or_false] at hw
        rcases hw with h | h | h
        · simp only [MEvent.check.injEq] at h
          exact h
        · exact absurd h (by simp)
        · exact absurd h (by simp)
      have := goodRun_append h1 (ih (tick + 1) (ci + 1) (ri + 1))
      simpa using this
    · simp only [runBgp, hv, Bool.false_eq_true, if_false]
      intro w hw
      simp [goodRun, List.dropLast] at hw

/-- Full shape of one pass of the inner loop of `monitor_all_processes`: the
trace is a sequence of `[append, sleep, check]` blocks, one block per
appended record (so there is exactly one sleep and one check immediately
after every record); the pass covers the whole process list exactly when
`cont` survives; and a failed check ends the pass immediately, as its last
event. -/
theorem tickAll_spec (env : EnvAll) (rid : Int) (rname : String) (tick : ℕ) :
    ∀ (procs : List ProcInfo) (ci ri : ℕ),
      (∃ l : List (RowA × Int),
        (tickAll env rid rname tick procs ci ri).rows = l.map Prod.fst
        ∧ (tickAll env rid rname tick procs ci ri).evs
            = (l.map fun pr =>
                [MEvent.append tick pr.1, MEvent.sleep, MEvent.check pr.2]).flatten)
      ∧ ((tickAll env rid rname tick procs ci ri).evs.countP isSleep
          = (tickAll env rid rname tick procs ci ri).rows.length)
      ∧ ((tickAll env rid rname tick procs ci ri).cont = true →
          (tickAll env rid rname tick procs ci ri).rows.length = procs.length)
      ∧ ((tickAll env rid rname tick procs ci ri).cont = false →
          ∃ v : Int, v ≠ 1
            ∧ (tickAll env rid rname tick procs ci ri).evs.getLast?
                = some (MEvent.check v)
            ∧ (tickAll env rid rname tick procs ci ri).rows.length
                ≤ procs.length) := by
  intro procs
  induction procs with
  | nil =>
    intro ci ri
    refine ⟨⟨[], by simp [tickAll]⟩, by simp [tickAll], by simp [tickAll], ?_⟩
    intro h
    simp [tickAll] at h
  | cons p rest ih =>
    intro ci ri
    by_cases hv : read_control (env.control ri) = 1
    · obtain ⟨⟨l, hrows, hevs⟩, hcount, hfull, hstop⟩ := ih (ci + 1) (ri + 1)
      refine ⟨⟨(⟨rid, rname, env.clock ci, p⟩, 1) :: l, ?_, ?_⟩, ?_, ?_, ?_⟩
      · simp [tickAll, hv, hrows]
      · simp [tickAll, hv, hevs]
      · simp [tickAll, hv, isSleep, hcount]
      · intro hc
        simp only [tickAll, hv, if_pos] at hc ⊢
        simp [hfull hc]
      · intro hc
        have hc' : (tickAll env rid rname tick rest (ci + 1) (ri + 1)).cont = false := by
          simpa [tickAll, hv] using hc
        obtain ⟨v, hv1, hlast, hlen⟩ := hstop hc'
        have hne : (tickAll env rid rname tick rest (ci + 1) (ri + 1)).evs ≠ [] := by
          intro h0
          rw [h0] at hlast
          simp at hlast
        refine ⟨v, hv1, ?_, ?_⟩
        · have hx : (tickAll env rid rname tick (p :: rest) ci ri).evs
              = [MEvent.append tick ⟨rid, rname, env.clock ci, p⟩, MEvent.sleep,
                 MEvent.check 1]
                ++ (tickAll env rid rname tick rest (ci + 1) (ri + 1)).evs := by
            simp [tickAll, hv]
          rw [hx, List.getLast?_append_of_ne_nil _ hne]
          exact hlast
        · have hr : (tickAll env rid rname tick (p :: rest) ci ri).rows
              = (⟨rid, rname, env.clock ci, p⟩ : RowA)
                :: (tickAll env rid rname tick rest (ci + 1) (ri + 1)).rows := by
            simp [tickAll, hv]
          rw [hr]
          simpa using Nat.succ_le_succ hlen
    · refine ⟨⟨[(⟨rid, rname, env.clock ci, p⟩, read_control (env.control ri))],
          by simp [tickAll, hv], by simp [tickAll, hv]⟩,
        by simp [tickAll, hv, isSleep], ?_, ?_⟩
      · intro hc
        simp [tickAll, hv] at hc
      · intro _
        refine ⟨read_control (env.control ri), hv, by simp [tickAll, hv], ?_⟩
        have hr : (tickAll env rid rname tick (p :: rest) ci ri).rows
            = [⟨rid, rname, env.clock ci, p⟩] := by
          simp [tickAll, hv]
        rw [hr]
        simp

/-- Each iteration of `monitor_bgp_cpu`'s main loop whose control check read
`1` appends exactly one record: the log length equals the number of
successful checks. -/
theorem runBgp_one_per_tick (env : EnvBgp) (rid : Int) (rname : String) :
    ∀ (fuel tick ci ri : ℕ),
      (runBgp env rid rname fuel tick ci ri).log.length
        = checkOneCount (runBgp env rid rname fuel tick ci ri).evs := by
  intro fuel
  induction fuel with
  | zero => intro tick ci ri; rfl
  | succ n ih =>
    intro tick ci ri
    by_cases hv : read_control (env.control ri) = 1
    · simp only [runBgp, hv, if_pos]
      simp [checkOneCount, checkVals, ih (tick + 1) (ci + 1) (ri + 1)]
    · simp only [runBgp, hv, Bool.false_eq_true, if_false]
      simp [checkOneCount, checkVals, List.count_singleton, hv]

/-- The clock counter advances by one per record appended during an
inner-loop pass. -/
theorem tickAll_ci (env : EnvAll) (rid : Int) (rname : String) (tick : ℕ) :
    ∀ (procs : List ProcInfo) (ci ri : ℕ),
      (tickAll env rid rname tick procs ci ri).ci
        = ci + (tickAll env rid rname tick procs ci ri).rows.length := by
  intro procs
  induction procs with
  | nil => intro ci ri; simp [tickAll]
  | cons p rest ih =>
    intro ci ri
    by_cases hv : read_control (env.control ri) = 1
    · simp [tickAll, hv, ih (ci + 1) (ri + 1)]
      omega
    · simp [tickAll, hv]

/-- Timestamps of the records of one inner-loop pass are the clock readings
at consecutive query indices starting at `ci`. -/
theorem tickAll_ts (env : EnvAll) (rid : Int) (rname : String) (tick : ℕ) :
    ∀ (procs : List ProcInfo) (ci ri : ℕ),
      (tickAll env rid rname tick procs ci ri).rows.map RowA.timestamp
        = (List.range' ci (tickAll env rid rname tick procs ci ri).rows.length).map
            env.clock := by
  intro procs
  induction procs with
  | nil => intro ci ri; simp [tickAll]
  | cons p rest ih =>
    intro ci ri
    by_cases hv : read_control (env.control ri) = 1
    · simp only [tickAll, hv, if_pos, List.map_cons, List.length_cons]
      rw [List.range'_succ, List.map_cons, ih (ci + 1) (ri + 1)]
    · simp [tickAll, hv, List.range'_succ]

/-- Timestamps of a whole `monitor_all_processes` log are the clock readings
at consecutive query indices starting at `ci`. -/
theorem runAll_ts (env : EnvAll) (rid : Int) (rname : String) :
    ∀ (fuel tick ci ri : ℕ),
      ∃ n : ℕ,
        (runAll env rid rname fuel tick ci ri).log.map RowA.timestamp
          = (List.range' ci n).map env.clock := by
  intro fuel
  induction fuel with
  | zero => intro tick ci ri; exact ⟨0, by simp [runAll]⟩
  | succ m ih =>
    intro tick ci ri
    cases hc : (tickAll env rid rname tick (env.table tick) ci ri).cont
    · refine ⟨(tickAll env rid rname tick (env.table tick) ci ri).rows.length, ?_⟩
      simp only [runAll, hc, Bool.false_eq_true, if_false]
      exact tickAll_ts env rid rname tick (env.table tick) ci ri
    · obtain ⟨n2, hn2⟩ := ih (tick + 1)
        (tickAll env rid rname tick (env.table tick) ci ri).ci
        (tickAll env rid rname tick (env.table tick) ci ri).ri
      refine ⟨(tickAll env rid rname tick (env.table tick) ci ri).rows.length + n2, ?_⟩
      simp only [runAll, hc, if_pos, List.map_append]
      rw [tickAll_ts env rid rname tick (env.table tick) ci ri, hn2,
        tickAll_ci env rid rname tick (env.table tick) ci ri]
      rw [← List.map_append, List.range'_append_1, Nat.add_comm n2]

/-- Timestamps of a whole `monitor_bgp_cpu` log are the clock readings at
consecutive query indices starting at `ci`. -/
theorem runBgp_ts (env : EnvBgp) (rid : Int) (rname : String) :
    ∀ (fuel tick ci ri : ℕ),
      ∃ n : ℕ,
        (runBgp env rid rname fuel tick ci ri).log.map BgpRow.timestamp
          = (List.range' ci n).map env.clock := by
  intro fuel
  induction fuel with
  | zero => intro tick ci ri; exact ⟨0, by simp [runBgp]⟩
  | succ m ih =>
    intro tick ci ri
    by_cases hv : read_control (env.control ri) = 1
    · obtain ⟨n2, hn2⟩ := ih (tick + 1) (ci + 1) (ri + 1)
      refine ⟨n2 + 1, ?_⟩
      simp only [runBgp, hv, if_pos, List.map_cons]
      rw [hn2, List.range'_succ, List.map_cons]
    · exact ⟨0, by simp [runBgp, hv]⟩

/-- Clock readings at consecutive indices are nondecreasing when the clock
is monotone in query order. -/
theorem chain_le_clock_range' (c : ℕ → ℚ) (hm : ∀ i j, i ≤ j → c i ≤ c j) :
    ∀ (n s : ℕ), List.Chain' (· ≤ ·) ((List.range' s n).map c) := by
  intro n
  induction n with
  | zero => intro s; simp
  | succ m ih =>
    intro s
    rw [List.range'_succ, List.map_cons]
    rw [List.chain'_cons']
    refine ⟨?_, ih (s + 1)⟩
    intro y hy
    cases m with
    | zero => simp at hy
    | succ k =>
      rw [List.range'_succ, List.map_cons] at hy
      simp only [List.head?_cons, Option.mem_def, Option.some.injEq] at hy
      rw [← hy]
      exact hm s (s + 1) (Nat.le_succ s)

/-- Every record appended during one inner-loop pass carries that pass's
tick tag. -/
theorem tickAll_tags (env : EnvAll) (rid : Int) (rname : String) (tick : ℕ) :
    ∀ (procs : List ProcInfo) (ci ri : ℕ),
      appendTicks (tickAll env rid rname tick procs ci ri).evs
        = List.replicate (tickAll env rid rname tick procs ci ri).rows.length tick := by
  intro procs
  induction procs with
  | nil => intro ci ri; simp [tickAll, appendTicks]
  | cons p rest ih =>
    intro ci ri
    by_cases hv : read_control (env.control ri) = 1
    · simp [tickAll, hv, appendTicks, List.replicate_succ] at ih ⊢
      exact ih (ci + 1) (ri + 1)
    · simp [tickAll, hv, appendTicks, List.replicate_succ]

/-- Tick tags of a `monitor_all_processes` trace are nondecreasing in trace
order and bounded below by the starting tick. -/
theorem runAll_tags (env : EnvAll) (rid : Int) (rname : String) :
    ∀ (fuel tick ci ri : ℕ),
      List.Chain' (· ≤ ·) (appendTicks (runAll env rid rname fuel tick ci ri).evs)
      ∧ ∀ x ∈ appendTicks (runAll env rid rname fuel tick ci ri).evs, tick ≤ x := by
  intro fuel
  induction fuel with
  | zero =>
    intro tick ci ri
    constructor
    · simp [runAll, appendTicks]
    · intro x hx; simp [runAll, appendTicks] at hx
  | succ m ih =>
    intro tick ci ri
    cases hc : (tickAll env rid rname tick (env.table tick) ci ri).cont
    · simp only [runAll, hc, Bool.false_eq_true, if_false]
      rw [tickAll_tags env rid rname tick (env.table tick) ci ri]
      constructor
      · exact List.chain'_replicate_of_rel _ (le_refl tick)
      · intro x hx
        rw [List.eq_of_mem_replicate hx]
    · obtain ⟨ihc, ihb⟩ := ih (tick + 1)
        (tickAll env rid rname tick (env.table tick) ci ri).ci
        (tickAll env rid rname tick (env.table tick) ci ri).ri
      have hsplit : appendTicks (runAll env rid rname (m + 1) tick ci ri).evs
          = List.replicate (tickAll env rid rname tick (env.table tick) ci ri).rows.length tick
            ++ appendTicks (runAll env rid rname m (tick + 1)
                (tickAll env rid rname tick (env.table tick) ci ri).ci
                (tickAll env rid rname tick (env.table tick) ci ri).ri).evs := by
        simp only [runAll, hc, if_pos, appendTicks, List.filterMap_append]
        rw [← appendTicks, ← appendTicks, tickAll_tags]
      rw [hsplit]
      constructor
      · rw [List.chain'_append]
        refine ⟨List.chain'_replicate_of_rel _ (le_refl tick), ihc, ?_⟩
        intro x hx y hy
        rw [List.eq_of_mem_replicate (List.mem_of_mem_getLast? hx)]
        exact Nat.le_of_succ_le (ihb y (List.mem_of_mem_head? hy))
      · intro x hx
        rcases List.mem_append.mp hx with h | h
        · rw [List.eq_of_mem_replicate h]
        · exact Nat.le_of_succ_le (ihb x h)

/-- Tick tags of a `monitor_bgp_cpu` trace are strictly increasing in trace
order and bounded below by the starting tick. -/
theorem runBgp_tags (env : EnvBgp) (rid : Int) (rname : String) :
    ∀ (fuel tick ci ri : ℕ),
      List.Chain' (· < ·) (appendTicks (runBgp env rid rname fuel tick ci ri).evs)
      ∧ ∀ x ∈ appendTicks (runBgp env rid rname fuel tick ci ri).evs, tick ≤ x := by
  intro fuel
  induction fuel with
  | zero =>
    intro tick ci ri
    constructor
    · simp [runBgp, appendTicks]
    · intro x hx; simp [runBgp, appendTicks] at hx
  | succ m ih =>
    intro tick ci ri
    by_cases hv : read_control (env.control ri) = 1
    · obtain ⟨ihc, ihb⟩ := ih (tick + 1) (ci + 1) (ri + 1)
      have hsplit : appendTicks (runBgp env rid rname (m + 1) tick ci ri).evs
          = tick :: appendTicks (runBgp env rid rname m (tick + 1) (ci + 1) (ri + 1)).evs := by
        simp [runBgp, hv, appendTicks]
      rw [hsplit]
      constructor
      · rw [List.chain'_cons']
        refine ⟨?_, ihc⟩
        intro y hy
        exact Nat.lt_of_succ_le (ihb y (List.mem_of_mem_head? hy))
      · intro x hx
        rcases List.mem_cons.mp hx with h | h
        · rw [h]
        · exact Nat.le_of_succ_le (ihb x h)
    · constructor
      · simp [runBgp, hv, appendTicks]
      · intro x hx
        simp [runBgp, hv, appendTicks] at hx

/-- Every record in a `monitor_bgp_cpu` log stores, as its per-core columns,
one of the environment's per-core readings. -/
theorem runBgp_row_cores (env : EnvBgp) (rid : Int) (rname : String) :
    ∀ (fuel tick ci ri : ℕ),
      ∀ row ∈ (runBgp env rid rname fuel tick ci ri).log,
        ∃ t : ℕ, row.cores = env.cores t := by
  intro fuel
  induction fuel with
  | zero => intro tick ci ri row h; simp [runBgp] at h
  | succ m ih =>
    intro tick ci ri row h
    by_cases hv : read_control (env.control ri) = 1
    · simp only [runBgp, hv, if_pos] at h
      rcases List.mem_cons.mp h with h | h
      · exact ⟨tick, by rw [h]⟩
      · exact ih (tick + 1) (ci + 1) (ri + 1) row h
    · simp [runBgp, hv] at h

/-- Arity of a named-process record: four fixed fields, one per core, three
process fields. -/
theorem BgpRow_cells_length (r : BgpRow) :
    r.cells.length = 4 + r.cores.length + 3 := by
  simp [BgpRow.cells]
  omega

/-- Arity of the named-process header row. -/
theorem headersBgp_length (n : ℕ) :
    (headersBgp n).length = 4 + n + 3 := by
  simp [headersBgp, cpuColumns]
  omega

/-- An inner-loop pass over a non-empty process list appends at least one
record: the first record is appended before the first in-loop check. -/
theorem tickAll_rows_ne_nil (env : EnvAll) (rid : Int) (rname : String)
    (tick : ℕ) (p : ProcInfo) (rest : List ProcInfo) (ci ri : ℕ) :
    (tickAll env rid rname tick (p :: rest) ci ri).rows ≠ [] := by
  by_cases hv : read_control (env.control ri) = 1 <;> simp [tickAll, hv]

/- ## Claim theorems -/

/-- C1: the claim says that when one of the named processes ('bgp', 'ipfib',
'urib') is absent at startup, `monitor_bgp_cpu` prints a diagnostic and
returns before the barrier.  The code does not do this: `if not bgp_process`
tests a `psutil.Process` object, which is always truthy, so with a non-empty
process table lacking the name the function silently proceeds, treating the
last enumerated process as the named one; with an empty table the unbound
loop variable raises `NameError` instead of the diagnostic.  This theorem
evaluates the embedded startup at such a failing input: the table
`["ipfib", "urib", "sshd"]` contains no process named "bgp", yet startup
proceeds (with "sshd" standing in for the BGP process); the empty table
yields the `NameError` outcome, not an abort. -/
theorem bgp_startup_missing_process_proceeds :
    ("bgp" ∉ ["ipfib", "urib", "sshd"]
      ∧ bgpStartup ["ipfib", "urib", "sshd"]
          = Startup.proceed "sshd" "ipfib" "urib")
    ∧ bgpStartup [] = Startup.nameError := by decide

/-- C2 counterexample: the claim as stated ("for every control-file content
that is not the literal integer 1, `read_control` returns a value different
from 1") is false: the content `"01"` is not the literal `1`, yet Python's
`int("01")` is `1`, so `read_control` returns `1` and the barrier advances
on that read. -/
theorem read_control_nonliteral_one_cex :
    "01" ≠ "1" ∧ read_control (some "01") = 1
    ∧ barrierStep (some "01") = BarrierAct.start := by decide

/-- C2 (amended): for every control-file content that does not parse to the
integer 1 under Python's `int` conversion of the stripped content, and for a
missing control file, `read_control` returns a value different from 1, so
the pre-loop barrier of both monitor functions does not advance on that
read. -/
theorem read_control_not_one_unless_parses_one :
    (∀ content : String, pyInt (pyStrip content) ≠ some 1 →
      read_control (some content) ≠ 1 ∧ barrierStep (some content) = BarrierAct.wait)
    ∧ (read_control none ≠ 1 ∧ barrierStep none = BarrierAct.wait) := by
  constructor
  · intro content h
    have hr : read_control (some content) ≠ 1 := by
      simp only [read_control]
      cases hp : pyInt (pyStrip content) with
      | none => simp
      | some n =>
        intro hn
        simp only at hn
        exact h (by rw [hp, hn])
    exact ⟨hr, by simp [barrierStep, hr]⟩
  · constructor
    · simp [read_control]
    · simp [barrierStep, read_control]

/-- C2 witness: the content `"0"` does not parse to 1, `read_control`
returns a value different from 1 on it, and the barrier stays waiting. -/
theorem read_control_not_one_unless_parses_one_wit :
    (pyInt (pyStrip "0") ≠ some 1)
    ∧ (read_control (some "0") ≠ 1 ∧ barrierStep (some "0") = BarrierAct.wait) :=
  ⟨by decide, read_control_not_one_unless_parses_one.1 "0" (by decide)⟩

/-- C3: for every control-file state in which the file is missing
(`FileNotFoundError`) or its stripped content does not parse as an integer
(`ValueError`), `read_control` returns `0` normally; being a total function
into `Int`, it surfaces no read failure as an exception to the caller. -/
theorem read_control_failure_returns_zero :
    (∀ content : String, pyInt (pyStrip content) = none →
      read_control (some content) = 0)
    ∧ read_control none = 0 := by
  constructor
  · intro content h
    simp [read_control, h]
  · simp [read_control]

/-- C3 witness: the non-integer content `"abc"` yields `0`. -/
theorem read_control_failure_returns_zero_wit :
    (pyInt (pyStrip "abc") = none) ∧ read_control (some "abc") = 0 :=
  ⟨by decide, read_control_failure_returns_zero.1 "abc" (by decide)⟩

/-- C4: in every record appended by `monitor_bgp_cpu`, the aggregate CPU
field equals the sum of the per-core CPU fields of that same record. -/
theorem bgp_total_cpu_is_sum_of_cores (env : EnvBgp) (rid : Int)
    (rname : String) (fuel tick ci ri : ℕ) :
    ∀ row ∈ (runBgp env rid rname fuel tick ci ri).log,
      row.cpu = row.cores.sum := by
  induction fuel generalizing tick ci ri with
  | zero => intro row h; simp [runBgp] at h
  | succ n ih =>
    intro row h
    by_cases hv : read_control (env.control ri) = 1
    · simp only [runBgp, hv, if_pos] at h
      rcases List.mem_cons.mp h with h | h
      · subst h; simp [pySum_eq_sum]
      · exact ih (tick + 1) (ci + 1) (ri + 1) row h
    · simp [runBgp, hv] at h

/-- C4 witness: a concrete one-tick run whose single record has aggregate
CPU equal to the sum of its per-core readings. -/
theorem bgp_total_cpu_is_sum_of_cores_wit :
    (⟨7, "r0", 0, pySum [50, 25], [50, 25], 10, 5, 2⟩ : BgpRow)
        ∈ (runBgp envB1 7 "r0" 1 0 0 0).log
    ∧ (⟨7, "r0", 0, pySum [50, 25], [50, 25], 10, 5, 2⟩ : BgpRow).cpu
        = (⟨7, "r0", 0, pySum [50, 25], [50, 25], 10, 5, 2⟩ : BgpRow).cores.sum :=
  ⟨List.Mem.head _,
   bgp_total_cpu_is_sum_of_cores envB1 7 "r0" 1 0 0 0 _ (List.Mem.head _)⟩

/-- C5: in both monitoring modes, once a control-file check reads a value
other than 1 (the pre-tick check in named-process mode, the per-process
in-flight check in all-process mode), no further record is appended for the
remainder of the run. -/
theorem no_append_after_failed_check (envA : EnvAll) (envB : EnvBgp)
    (ridA ridB : Int) (rnA rnB : String)
    (fuelA tickA ciA riA fuelB tickB ciB riB : ℕ) :
    noAppendAfterBad (runAll envA ridA rnA fuelA tickA ciA riA).evs
    ∧ noAppendAfterBad (runBgp envB ridB rnB fuelB tickB ciB riB).evs :=
  ⟨noAppendAfterBad_of_goodRun (runAll_goodRun envA ridA rnA fuelA tickA ciA riA),
   noAppendAfterBad_of_goodRun (runBgp_goodRun envB ridB rnB fuelB tickB ciB riB)⟩

/-- C5 witness: in a concrete all-process run whose control file reads `"0"`
at the first in-flight check, the trace splits at that failed check with
nothing appended after it. -/
theorem no_append_after_failed_check_wit :
    MEvent.append 0 (⟨7, "", 0, p0⟩ : RowA) ∉ ([] : List (MEvent RowA)) :=
  (no_append_after_failed_check envA0 envB0 7 7 "" "" 1 0 0 0 1 0 0 0).1
    [MEvent.append 0 ⟨7, "", 0, p0⟩, MEvent.sleep] 0 []
    (by decide) (by decide) 0 ⟨7, "", 0, p0⟩

/-- C6: in all-process mode, each iteration of the per-process enumeration
performs exactly one sleep and one control-file check immediately after
appending that process's record (the trace is a sequence of
append-sleep-check blocks, one per record, so a completed tick over `n`
processes contains `n` sleeps rather than one), and a check reading a value
other than 1 terminates the tick mid-enumeration, as the final event. -/
theorem allproc_sleep_and_check_per_record (env : EnvAll) (rid : Int)
    (rname : String) (tick : ℕ) (procs : List ProcInfo) (ci ri : ℕ) :
    (∃ l : List (RowA × Int),
      (tickAll env rid rname tick procs ci ri).rows = l.map Prod.fst
      ∧ (tickAll env rid rname tick procs ci ri).evs
          = (l.map fun pr =>
              [MEvent.append tick pr.1, MEvent.sleep, MEvent.check pr.2]).flatten)
    ∧ ((tickAll env rid rname tick procs ci ri).evs.countP isSleep
        = (tickAll env rid rname tick procs ci ri).rows.length)
    ∧ ((tickAll env rid rname tick procs ci ri).cont = true →
        (tickAll env rid rname tick procs ci ri).rows.length = procs.length)
    ∧ ((tickAll env rid rname tick procs ci ri).cont = false →
        ∃ v : Int, v ≠ 1
          ∧ (tickAll env rid rname tick procs ci ri).evs.getLast?
              = some (MEvent.check v)
          ∧ (tickAll env rid rname tick procs ci ri).rows.length
              ≤ procs.length) :=
  tickAll_spec env rid rname tick procs ci ri

/-- C6 witness: a concrete completed one-process tick has exactly one record
(hence one sleep and one check). -/
theorem allproc_sleep_and_check_per_record_wit :
    (tickAll envA1 7 "" 0 [p0] 0 0).cont = true
    ∧ (tickAll envA1 7 "" 0 [p0] 0 0).rows.length = [p0].length :=
  ⟨by decide,
   (allproc_sleep_and_check_per_record envA1 7 "" 0 [p0] 0 0).2.2.1 (by decide)⟩

/-- C7: a tick that completes without the control file flipping away from 1
appends exactly one record per process visible in the process table at that
tick in all-process mode, and exactly one record per tick in named-process
mode (the log length equals the number of successful pre-tick checks). -/
theorem records_per_completed_tick (envA : EnvAll) (envB : EnvBgp)
    (ridA ridB : Int) (rnA rnB : String) (tick : ℕ) (procs : List ProcInfo)
    (ci ri : ℕ) (fuelB tickB ciB riB : ℕ) :
    ((tickAll envA ridA rnA tick procs ci ri).cont = true →
      (tickAll envA ridA rnA tick procs ci ri).rows.length = procs.length)
    ∧ (runBgp envB ridB rnB fuelB tickB ciB riB).log.length
        = checkOneCount (runBgp envB ridB rnB fuelB tickB ciB riB).evs :=
  ⟨(tickAll_spec envA ridA rnA tick procs ci ri).2.2.1,
   runBgp_one_per_tick envB ridB rnB fuelB tickB ciB riB⟩

/-- C7 witness: a concrete completed two-process tick appends exactly two
records. -/
theorem records_per_completed_tick_wit :
    (tickAll envA1 9 "x" 3 [p0, p0] 0 0).cont = true
    ∧ (tickAll envA1 9 "x" 3 [p0, p0] 0 0).rows.length = [p0, p0].length :=
  ⟨by decide,
   (records_per_completed_tick envA1 envB1 9 9 "x" "x" 3 [p0, p0] 0 0 1 0 0 0).1
     (by decide)⟩

/-- C8: for every finished run, the output (modelled as the sequence of rows
handed to `csv.writer.writerow`, or equivalently of comma-joined printed
lines — both branches emit the same header then the same records in order)
is one header row followed by exactly one data row per in-memory record; the
header arity matches every record's arity in both modes (3 fixed fields plus
9 attributes in all-process mode, 4 fixed fields plus one per core plus 3
process fields in named-process mode), so re-reading the CSV yields the same
row count and field names as the in-memory log. -/
theorem output_shape_matches_records (envA : EnvAll) (envB : EnvBgp)
    (ridA ridB : Int) (rnA rnB : String)
    (fuelA tickA ciA riA fuelB tickB ciB riB : ℕ)
    (hfc : envB.fixedCores) :
    (∀ (h : List String) (lg : List (List Cell)),
      writeOutput h lg = (h.map Cell.str) :: lg)
    ∧ (writeOutput headersAll
        ((runAll envA ridA rnA fuelA tickA ciA riA).log.map RowA.cells)).length
        = 1 + (runAll envA ridA rnA fuelA tickA ciA riA).log.length
    ∧ headersAll.length = 12
    ∧ (∀ r : RowA, r.cells.length = headersAll.length)
    ∧ (writeOutput (headersBgp envB.initCores.length)
        ((runBgp envB ridB rnB fuelB tickB ciB riB).log.map BgpRow.cells)).length
        = 1 + (runBgp envB ridB rnB fuelB tickB ciB riB).log.length
    ∧ (headersBgp envB.initCores.length).length = 4 + envB.initCores.length + 3
    ∧ (∀ row ∈ (runBgp envB ridB rnB fuelB tickB ciB riB).log,
        row.cells.length = (headersBgp envB.initCores.length).length) := by
  refine ⟨fun h lg => rfl, ?_, by decide, fun r => rfl, ?_, headersBgp_length _, ?_⟩
  · simp [writeOutput]
    omega
  · simp [writeOutput]
    omega
  · intro row hrow
    obtain ⟨t, hct⟩ := runBgp_row_cores envB ridB rnB fuelB tickB ciB riB row hrow
    rw [BgpRow_cells_length, headersBgp_length, hct, hfc t]

/-- C8 witness: a concrete named-process environment has a fixed core count
and its header arity is 4 + cores + 3. -/
theorem output_shape_matches_records_wit :
    envB1.fixedCores
    ∧ (headersBgp envB1.initCores.length).length
        = 4 + envB1.initCores.length + 3 :=
  ⟨fun _ => rfl,
   (output_shape_matches_records envA1 envB1 7 7 "" "" 1 0 0 0 1 0 0 0
     (fun _ => rfl)).2.2.2.2.2.1⟩

/-- C9: records appear in the log in tick order — the tick tags of the
append events are nondecreasing in trace order (strictly increasing in
named-process mode, where each tick appends one record), so a record of a
later tick never precedes one of an earlier tick — and, provided the wall
clock (`datetime.utcnow`) is monotone over the run's queries, the timestamps
stored in the log are monotone in append order in both modes. -/
theorem log_in_tick_order (envA : EnvAll) (envB : EnvBgp) (ridA ridB : Int)
    (rnA rnB : String) (fuelA tickA ciA riA fuelB tickB ciB riB : ℕ)
    (hA : ∀ i j : ℕ, i ≤ j → envA.clock i ≤ envA.clock j)
    (hB : ∀ i j : ℕ, i ≤ j → envB.clock i ≤ envB.clock j) :
    List.Chain' (· ≤ ·) (appendTicks (runAll envA ridA rnA fuelA tickA ciA riA).evs)
    ∧ List.Chain' (· < ·) (appendTicks (runBgp envB ridB rnB fuelB tickB ciB riB).evs)
    ∧ List.Chain' (· ≤ ·)
        ((runAll envA ridA rnA fuelA tickA ciA riA).log.map RowA.timestamp)
    ∧ List.Chain' (· ≤ ·)
        ((runBgp envB ridB rnB fuelB tickB ciB riB).log.map BgpRow.timestamp) := by
  refine ⟨(runAll_tags envA ridA rnA fuelA tickA ciA riA).1,
    (runBgp_tags envB ridB rnB fuelB tickB ciB riB).1, ?_, ?_⟩
  · obtain ⟨n, hn⟩ := runAll_ts envA ridA rnA fuelA tickA ciA riA
    rw [hn]
    exact chain_le_clock_range' envA.clock hA n ciA
  · obtain ⟨n, hn⟩ := runBgp_ts envB ridB rnB fuelB tickB ciB riB
    rw [hn]
    exact chain_le_clock_range' envB.clock hB n ciB

/-- C9 witness: with the monotone cast clock, a concrete two-tick all-process
trace has nondecreasing tick tags and a concrete two-tick named-process log
has monotone timestamps. -/
theorem log_in_tick_order_wit :
    List.Chain' (· ≤ ·) (appendTicks (runAll envA1 7 "" 2 0 0 0).evs)
    ∧ List.Chain' (· ≤ ·) ((runBgp envB1 7 "" 2 0 0 0).log.map BgpRow.timestamp) :=
  ⟨(log_in_tick_order envA1 envB1 7 7 "" "" 2 0 0 0 2 0 0 0
      natCastClock_mono natCastClock_mono).1,
   (log_in_tick_order envA1 envB1 7 7 "" "" 2 0 0 0 2 0 0 0
      natCastClock_mono natCastClock_mono).2.2.2⟩

/-- C10: in all-process mode the first record of a tick is appended before
any in-loop control check (the first event of a tick over a non-empty
process list is an append), so a run that passes the barrier with a
non-empty process table logs at least one record no matter what the control
file reads afterwards; `monitor_bgp_cpu`, by contrast, checks the control
file before appending and finishes with an empty log whenever its first
in-loop check reads a value other than 1. -/
theorem first_record_before_first_check (envA : EnvAll) (envB : EnvBgp)
    (ridA ridB : Int) (rnA rnB : String) :
    (∀ (tick : ℕ) (p : ProcInfo) (rest : List ProcInfo) (ci ri : ℕ),
        (tickAll envA ridA rnA tick (p :: rest) ci ri).evs.head?
          = some (MEvent.append tick ⟨ridA, rnA, envA.clock ci, p⟩))
    ∧ (∀ (fuel tick ci ri : ℕ), fuel ≠ 0 → envA.table tick ≠ [] →
        (runAll envA ridA rnA fuel tick ci ri).log ≠ [])
    ∧ (∀ (fuel tick ci ri : ℕ), read_control (envB.control ri) ≠ 1 →
        (runBgp envB ridB rnB fuel tick ci ri).log = []) := by
  refine ⟨?_, ?_, ?_⟩
  · intro tick p rest ci ri
    by_cases hv : read_control (envA.control ri) = 1 <;> simp [tickAll, hv]
  · intro fuel tick ci ri hf hne
    cases fuel with
    | zero => exact absurd rfl hf
    | succ m =>
      have hrows : (tickAll envA ridA rnA tick (envA.table tick) ci ri).rows ≠ [] := by
        cases henv : envA.table tick with
        | nil => exact absurd henv hne
        | cons p rest => exact tickAll_rows_ne_nil envA ridA rnA tick p rest ci ri
      cases hc : (tickAll envA ridA rnA tick (envA.table tick) ci ri).cont
      · simpa [runAll, hc] using hrows
      · simp only [runAll, hc, if_pos]
        intro h0
        exact hrows (List.append_eq_nil.mp h0).1
  · intro fuel tick ci ri hv
    cases fuel with
    | zero => rfl
    | succ m => simp [runBgp, hv]

/-- C10 witness: a concrete run whose control file reads `"0"` at every
in-loop check still logs a record, because its process table is non-empty
and the first append precedes the first check. -/
theorem first_record_before_first_check_wit :
    ((1 : ℕ) ≠ 0 ∧ envA0.table 0 ≠ [])
    ∧ (runAll envA0 7 "" 1 0 0 0).log ≠ [] :=
  ⟨⟨by decide, by decide⟩,
   (first_record_before_first_check envA0 envB0 7 7 "" "").2.1 1 0 0 0
     (by decide) (by decide)⟩
